import Mathlib

/-!
Shallow embedding of the rule-extraction-and-review pipeline of
`S1SharedDocSkill/src/doc_store.py` (retrieval scoring, markdown rule
extraction, code review, diff parsing, report verdicts, locator caching),
together with theorems settling the frozen claims about it.

String handling is modelled on `List Char` with hand-rolled primitives that
mirror Python's `str` operations (`in`, `lower`, `strip`, `split('\n')`,
slicing).  `Char.toLower`/`Char.toUpper` cover the ASCII range, which is the
range exercised by the Python code's case-folding of its ASCII vocabularies;
CJK characters are fixed points of both, as in Python.  Filesystem access is
modelled by explicit oracles (`FileOutcome`), as the code's `open`/`os.path`
calls are I/O.
-/

namespace DocReview

/-- Python's whitespace set for `str.strip` / regex `\s` (ASCII part). -/
def pyIsSpace (c : Char) : Bool :=
  c = ' ' || c = '\t' || c = '\n' || c = '\r' || c = '\x0b' || c = '\x0c'

/-- `startsWithL pat s` holds when `pat` is an initial segment of `s`. -/
def startsWithL : List Char → List Char → Bool
  | [], _ => true
  | _ :: _, [] => false
  | p :: ps, c :: cs => p = c && startsWithL ps cs

/-- `containsL hay needle`: Python's `needle in hay` on strings. -/
def containsL : List Char → List Char → Bool
  | hay, needle =>
    startsWithL needle hay ||
      (match hay with
       | [] => false
       | _ :: t => containsL t needle)

/-- Python `str.lower()` (ASCII case folding; CJK characters are fixed). -/
def toLowerL (cs : List Char) : List Char := cs.map Char.toLower

/-- Python `str.strip()`: drop leading and trailing whitespace. -/
def pyStripL (cs : List Char) : List Char :=
  ((cs.dropWhile pyIsSpace).reverse.dropWhile pyIsSpace).reverse

/-- Python `str.split('\n')`; on the empty string it yields `[""]`. -/
def splitOnNl : List Char → List (List Char)
  | [] => [[]]
  | c :: rest =>
    if c = '\n' then [] :: splitOnNl rest
    else
      match splitOnNl rest with
      | h :: t => (c :: h) :: t
      | [] => [[c]]

/-- Count `'\n'` characters, as `content.count('\n')`. -/
def countNl (cs : List Char) : Nat := cs.countP (· = '\n')

/-- String wrapper for `containsL`. -/
def strContains (hay needle : String) : Bool := containsL hay.data needle.data

/-- String wrapper for `toLowerL`. -/
def toLowerStr (s : String) : String := String.mk (toLowerL s.data)

/-- String wrapper for `pyStripL`. -/
def pyStrip (s : String) : String := String.mk (pyStripL s.data)

def isAsciiDigit (c : Char) : Bool := '0' ≤ c && c ≤ '9'

def isAsciiLetter (c : Char) : Bool := ('a' ≤ c && c ≤ 'z') || ('A' ≤ c && c ≤ 'Z')

/-- Python `str.isalnum()` restricted to the character ranges this code meets:
ASCII letters and digits plus the CJK unified ideographs block. -/
def pyIsAlnum (c : Char) : Bool :=
  isAsciiLetter c || isAsciiDigit c || (0x4e00 ≤ c.val && c.val ≤ 0x9fff)

/-- A regex word character (`\w`) over the same character ranges. -/
def isWordChar (c : Char) : Bool := pyIsAlnum c || c = '_'

/-- Decimal digit character for `0 ≤ n ≤ 9`. -/
def digitChar : Nat → Char
  | 0 => '0' | 1 => '1' | 2 => '2' | 3 => '3' | 4 => '4'
  | 5 => '5' | 6 => '6' | 7 => '7' | 8 => '8' | _ => '9'

def digitVal (c : Char) : Nat := c.toNat - 48

/-- Little-endian decimal digits of `n` (fuel-driven so it unfolds by `decide`). -/
def natDigitsRevGo : Nat → Nat → List Nat
  | 0, _ => []
  | fuel + 1, n => if n < 10 then [n] else n % 10 :: natDigitsRevGo fuel (n / 10)

def natDigitsRev (n : Nat) : List Nat := natDigitsRevGo (n + 1) n

/-- Python `str(n)` for a natural number. -/
def natToStr (n : Nat) : String :=
  String.mk ((natDigitsRev n).reverse.map digitChar)

/-- Python `f"{n:03d}"`: zero-pad the decimal form of `n` to width 3. -/
def format3 (n : Nat) : String :=
  let ds := (natDigitsRev n).reverse.map digitChar
  String.mk (List.replicate (3 - ds.length) '0' ++ ds)

/-- Value of a big-endian decimal digit-character list, as `int(s)` would. -/
def parseDigitsL (cs : List Char) : Nat := cs.foldl (fun a c => 10 * a + digitVal c) 0

/-- `foldl`-style decimal accumulation of a digit list. -/
def digitsToNat (cs : List Char) : Nat := parseDigitsL cs

/-! ## Retrieval scoring (`_calculate_relevance_score`, `_search_in_file`) -/

/-- `_calculate_relevance_score`: weights 100 (filename exact), 50 (filename
substring), 30 (directory name), 20 (content).  The Python float stays
integral, so the score is modelled in `Int`. -/
def calculateRelevanceScore (fileName keyword : String)
    (contentMatch nameMatch dirMatch : Bool) : Int :=
  let fileNameLower := toLowerL fileName.data
  let keywordLower := toLowerL keyword.data
  (if nameMatch then
     (if fileNameLower = keywordLower then (100 : Int)
      else if containsL fileNameLower keywordLower then 50 else 0)
   else 0)
  + (if dirMatch then 30 else 0)
  + (if contentMatch then 20 else 0)

/-- Per-keyword contribution inside `_search_in_file`: the three independent
match tests, then the weight sum for keywords that match at all.  `content`
is the decoded (cap-truncated) text; `_extract_snippet` reports a content
match exactly when the lowercased keyword occurs in the lowercased content. -/
def keywordScore (fileName : String) (parentNames : List String)
    (content : String) (kw : String) : Int :=
  let kwLower := toLowerL kw.data
  let nameMatch := containsL (toLowerL fileName.data) kwLower
  let dirMatch := parentNames.any (fun p => containsL (toLowerL p.data) kwLower)
  let contentMatch := containsL (toLowerL content.data) kwLower
  if nameMatch || dirMatch || contentMatch then
    calculateRelevanceScore fileName kw contentMatch nameMatch dirMatch
  else 0

/-- `_search_in_file`'s `total_score`: sum of per-keyword scores. -/
def searchInFileScore (fileName : String) (parentNames : List String)
    (content : String) (keywords : List String) : Int :=
  (keywords.map (keywordScore fileName parentNames content)).sum

/-! ## Review data model (`StandardRule`, `ReviewIssue`, results, report) -/

structure StandardRule where
  ruleId : String
  title : String
  description : String
  keywords : List String
  severity : String
  sourceFile : String
  sourceLine : Option Nat
  sourceSection : Option String
  category : String
  examples : List String
  counterExamples : List String
  deriving DecidableEq

structure ReviewIssue where
  ruleId : String
  ruleTitle : String
  severity : String
  description : String
  filePath : String
  lineStart : Option Nat
  lineEnd : Option Nat
  codeSnippet : Option String
  suggestion : Option String
  ruleReference : Option String
  deriving DecidableEq

/-- `FileReviewResult` (the `reviewed_at` wall-clock stamp is omitted as
nondeterministic I/O; no reviewed property concerns it). -/
structure FileReviewResult where
  filePath : String
  issues : List ReviewIssue
  deriving DecidableEq

def FileReviewResult.errorCount (r : FileReviewResult) : Nat :=
  r.issues.countP (fun i => i.severity = "error")

def FileReviewResult.warningCount (r : FileReviewResult) : Nat :=
  r.issues.countP (fun i => i.severity = "warning")

def FileReviewResult.infoCount (r : FileReviewResult) : Nat :=
  r.issues.countP (fun i => i.severity = "info")

def FileReviewResult.hasBlockingIssues (r : FileReviewResult) : Bool :=
  0 < r.errorCount

/-- `ReviewReport` (again without the `created_at` stamp). -/
structure ReviewReport where
  fileResults : List FileReviewResult
  checklistName : String
  checklistRulesCount : Nat
  deriving DecidableEq

def ReviewReport.totalIssues (r : ReviewReport) : Nat :=
  (r.fileResults.map (fun fr => fr.issues.length)).sum

def ReviewReport.totalErrors (r : ReviewReport) : Nat :=
  (r.fileResults.map FileReviewResult.errorCount).sum

def ReviewReport.totalWarnings (r : ReviewReport) : Nat :=
  (r.fileResults.map FileReviewResult.warningCount).sum

def ReviewReport.hasBlockingIssues (r : ReviewReport) : Bool :=
  r.fileResults.any FileReviewResult.hasBlockingIssues

/-- The verdict expression of `ReviewReport.to_dict`. -/
def ReviewReport.verdict (r : ReviewReport) : String :=
  if r.hasBlockingIssues then "BLOCKED"
  else if 0 < r.totalWarnings then "PASSED_WITH_WARNINGS"
  else "PASSED"

structure StandardChecklist where
  name : String
  rules : List StandardRule
  sourceDocuments : List String
  categories : List (String × List StandardRule)
  deriving DecidableEq

/-- `StandardChecklist.add_rule`: append the rule and index it by category. -/
def addRuleToCats (cats : List (String × List StandardRule)) (r : StandardRule) :
    List (String × List StandardRule) :=
  if cats.any (fun p => p.1 = r.category) then
    cats.map (fun p => if p.1 = r.category then (p.1, p.2 ++ [r]) else p)
  else cats ++ [(r.category, [r])]

def StandardChecklist.addRule (cl : StandardChecklist) (r : StandardRule) :
    StandardChecklist :=
  { cl with rules := cl.rules ++ [r], categories := addRuleToCats cl.categories r }

/-! ## CodeReviewer: violation predicate and rule checking -/

/-- The fixed prohibition vocabulary of `_is_violation_pattern`. -/
def negativeKeywords : List String :=
  ["禁止", "不得", "不允许", "forbidden", "never", "must not", "shall not"]

/-- `CodeReviewer._is_violation_pattern` (the `keyword` argument is unused in
the Python body and kept here for signature fidelity). -/
def isViolationPattern (rule : StandardRule) (line : String) (_keyword : String) :
    Bool :=
  (rule.counterExamples.any (fun ce =>
      let lineNormalized := toLowerL (pyStripL line.data)
      let counterNormalized := toLowerL (pyStripL ce.data)
      containsL lineNormalized counterNormalized ||
        containsL counterNormalized lineNormalized))
  || (rule.severity = "error" &&
      negativeKeywords.any (fun neg =>
        containsL (toLowerL rule.description.data) neg.data))

/-- `_generate_suggestion`. -/
def generateSuggestion (rule : StandardRule) : String :=
  match rule.examples with
  | ex :: _ => "参考正确示例: " ++ ex
  | [] => "请根据规范 [" ++ rule.ruleId ++ "] 修改此处代码"

/-- The `rule_ref` string built in `_check_rule_against_code` (file, `:L` line
when truthy, ` §` section when truthy). -/
def ruleRefFull (rule : StandardRule) : String :=
  rule.sourceFile
    ++ (match rule.sourceLine with
        | some l => if l = 0 then "" else ":L" ++ natToStr l
        | none => "")
    ++ (match rule.sourceSection with
        | some s => if s = "" then "" else " §" ++ s
        | none => "")

/-- The `rule_ref` string built in `_check_rule_against_line` (no section). -/
def ruleRefLine (rule : StandardRule) : String :=
  rule.sourceFile
    ++ (match rule.sourceLine with
        | some l => if l = 0 then "" else ":L" ++ natToStr l
        | none => "")

/-- Issue assembled in `_check_rule_against_code` for a hit on 1-based line
`n`: snippet is the `max(0, n-3) .. min(len, n+2)` slice of the file lines. -/
def mkCodeIssue (rule : StandardRule) (allLines : List String)
    (filePath : String) (n : Nat) : ReviewIssue :=
  let snippet := String.intercalate "\n" ((allLines.take (min allLines.length (n + 2))).drop (n - 3))
  { ruleId := rule.ruleId
    ruleTitle := rule.title
    severity := rule.severity
    description := rule.description
    filePath := filePath
    lineStart := some n
    lineEnd := none
    codeSnippet := some snippet
    suggestion := some (generateSuggestion rule)
    ruleReference := if ruleRefFull rule = "" then none else some (ruleRefFull rule) }

/-- Inner line loop of `_check_rule_against_code` for one keyword: emit an
issue on the first line where the keyword occurs case-insensitively and the
violation predicate holds, then `break`. -/
def fvGo (rule : StandardRule) (allLines : List String) (filePath kw : String) :
    Nat → List String → Option ReviewIssue
  | _, [] => none
  | n, line :: rest =>
    if containsL (toLowerL line.data) (toLowerL kw.data) &&
        isViolationPattern rule line kw then
      some (mkCodeIssue rule allLines filePath n)
    else fvGo rule allLines filePath kw (n + 1) rest

def firstViolation (rule : StandardRule) (allLines : List String)
    (filePath kw : String) : Option ReviewIssue :=
  fvGo rule allLines filePath kw 1 allLines

/-- `CodeReviewer._check_rule_against_code`: the keyword loop.  Note the
Python `break` only leaves the inner line loop, so each keyword can
contribute one issue. -/
def checkRuleAgainstCode (rule : StandardRule) (code filePath : String)
    (_language : Option String) : List ReviewIssue :=
  let lines := (splitOnNl code.data).map String.mk
  rule.keywords.filterMap (firstViolation rule lines filePath)

/-- `CodeReviewer._check_rule_against_line` (diff mode): at most one issue per
(rule, line); the issue body does not depend on which keyword hit. -/
def checkRuleAgainstLine (rule : StandardRule) (line filePath : String)
    (lineNum : Nat) : Option ReviewIssue :=
  if rule.keywords.any (fun kw =>
      containsL (toLowerL line.data) (toLowerL kw.data) &&
        isViolationPattern rule line kw) then
    some
      { ruleId := rule.ruleId
        ruleTitle := rule.title
        severity := rule.severity
        description := rule.description
        filePath := filePath
        lineStart := some lineNum
        lineEnd := none
        codeSnippet := some (pyStrip line)
        suggestion := some (generateSuggestion rule)
        ruleReference := if ruleRefLine rule = "" then none else some (ruleRefLine rule) }
  else none

/-- `CodeReviewer.review_code_snippet` with the checklist passed explicitly
(`ensure_checklist` resolved). -/
def reviewCodeSnippet (cl : StandardChecklist) (code : String)
    (filePath : String) (language : Option String) : FileReviewResult :=
  { filePath := filePath
    issues := (cl.rules.map (fun r => checkRuleAgainstCode r code filePath language)).flatten }

/-! ## Diff parsing (`_parse_diff`) -/

structure DiffFile where
  path : String
  addedLines : List (Nat × String)
  deriving DecidableEq

structure DiffState where
  files : List DiffFile
  current : Option DiffFile
  lineNum : Nat
  deriving DecidableEq

/-- Greedy split of the tail of a `diff --git a/X b/Y` line: the regex
`a/(.+) b/(.+)$` puts the separator at the last ` b/` occurrence that leaves
both groups nonempty; the result is group 2 (the post-change path). -/
def findLastSep : List Char → Nat → Option Nat → Option Nat
  | [], _, best => best
  | t@(_ :: rest), i, best =>
    let best' :=
      if startsWithL (" b/".data) t && 1 ≤ i && 4 ≤ t.length then some i else best
    findLastSep rest (i + 1) best'

/-- `^diff --git a/(.+) b/(.+)$`. -/
def parseFileHeaderL (l : List Char) : Option String :=
  if startsWithL ("diff --git a/".data) l then
    let t := l.drop 13
    match findLastSep t 0 none with
    | some i => some (String.mk (t.drop (i + 3)))
    | none => none
  else none

/-- `^@@ -\d+(?:,\d+)? \+(\d+)(?:,\d+)? @@` — yields the new-side start. -/
def parseHunkHeaderL (l : List Char) : Option Nat :=
  if startsWithL ("@@ -".data) l then
    let t := l.drop 4
    let d1 := t.takeWhile isAsciiDigit
    if d1 = [] then none
    else
      let t2 := t.dropWhile isAsciiDigit
      let t3 :=
        match t2 with
        | ',' :: u => if (u.takeWhile isAsciiDigit) = [] then t2 else u.dropWhile isAsciiDigit
        | _ => t2
      if startsWithL (" +".data) t3 then
        let t4 := t3.drop 2
        let d2 := t4.takeWhile isAsciiDigit
        if d2 = [] then none
        else
          let t5 := t4.dropWhile isAsciiDigit
          let t6 :=
            match t5 with
            | ',' :: u => if (u.takeWhile isAsciiDigit) = [] then t5 else u.dropWhile isAsciiDigit
            | _ => t5
          if startsWithL (" @@".data) t6 then some (digitsToNat d2) else none
      else none
  else none

/-- One iteration of the `_parse_diff` line loop. -/
def diffStep (st : DiffState) (line : String) : DiffState :=
  match parseFileHeaderL line.data with
  | some p =>
    { files := st.files ++ st.current.toList
      current := some { path := p, addedLines := [] }
      lineNum := st.lineNum }
  | none =>
    match parseHunkHeaderL line.data with
    | some n => { st with lineNum := n }
    | none =>
      match st.current with
      | some f =>
        if startsWithL ("+".data) line.data && !startsWithL ("+++".data) line.data then
          { st with
            current := some { f with addedLines := f.addedLines ++ [(st.lineNum, String.mk (line.data.drop 1))] }
            lineNum := st.lineNum + 1 }
        else if startsWithL (" ".data) line.data then
          { st with lineNum := st.lineNum + 1 }
        else st
      | none => st

/-- `CodeReviewer._parse_diff`. -/
def parseDiff (diffContent : String) : List DiffFile :=
  let lines := (splitOnNl diffContent.data).map String.mk
  let final := lines.foldl diffStep { files := [], current := none, lineNum := 0 }
  final.files ++ final.current.toList

/-! ## Review entry points (file, files, diff) -/

/-- Outcome of resolving and reading one file, standing in for
`os.path.isfile` + `open(...).read()`. -/
inductive FileOutcome where
  | missing : FileOutcome
  | unreadable : String → FileOutcome
  | content : String → FileOutcome
  deriving DecidableEq

/-- `os.path.flatten(workspace_root, file_path)` on posix, with the falsy root
case folded into `none`.  (`os.path.normpath` is omitted: the read oracle is
keyed by the joined path.) -/
def resolveFullPath (wsRoot : Option String) (filePath : String) : String :=
  match wsRoot with
  | none => filePath
  | some r =>
    if startsWithL ("/".data) filePath.data then filePath
    else if r = "" || r.data.getLast? = some '/' then r ++ filePath
    else r ++ "/" ++ filePath

def langMap : List (String × String) :=
  [(".py", "python"), (".js", "javascript"), (".ts", "typescript"),
   (".jsx", "javascript"), (".tsx", "typescript"), (".java", "java"),
   (".cpp", "cpp"), (".cc", "cpp"), (".cxx", "cpp"), (".c", "c"),
   (".h", "cpp"), (".hpp", "cpp"), (".cs", "csharp"), (".go", "go"),
   (".rs", "rust"), (".rb", "ruby"), (".php", "php"), (".swift", "swift"),
   (".kt", "kotlin"), (".scala", "scala"), (".lua", "lua"), (".sh", "shell"),
   (".bash", "shell"), (".ps1", "powershell"), (".sql", "sql"),
   (".html", "html"), (".css", "css"), (".scss", "scss"), (".less", "less"),
   (".json", "json"), (".xml", "xml"), (".yaml", "yaml"), (".yml", "yaml"),
   (".md", "markdown"), (".ini", "ini"), (".cfg", "ini"), (".toml", "toml")]

/-- `CodeReviewer._detect_language`. -/
def detectLanguage (ext : String) : String :=
  ((langMap.find? (fun p => p.1 = ext)).map (·.2)).getD "unknown"

/-- `os.path.splitext(p)[1]`: extension from the last dot of the basename,
unless the basename consists only of leading dots up to that point. -/
def pySplitextExt (p : String) : String :=
  let base := (p.data.reverse.takeWhile (· ≠ '/')).reverse
  let revBase := base.reverse
  match revBase.findIdx? (· = '.') with
  | none => ""
  | some rIdx =>
    let dotIdx := base.length - 1 - rIdx
    if (base.take dotIdx).any (· ≠ '.') then String.mk (base.drop dotIdx) else ""

/-- `CodeReviewer.review_file`: missing files and read failures produce a
single synthetic `SYSTEM` issue of severity error instead of raising. -/
def reviewFile (fs : String → FileOutcome) (cl : StandardChecklist)
    (wsRoot : Option String) (filePath : String) : FileReviewResult :=
  let fullPath := resolveFullPath wsRoot filePath
  match fs fullPath with
  | .missing =>
    { filePath := filePath
      issues := [{ ruleId := "SYSTEM", ruleTitle := "文件不存在", severity := "error",
                   description := "无法找到文件: " ++ fullPath, filePath := filePath,
                   lineStart := none, lineEnd := none, codeSnippet := none,
                   suggestion := none, ruleReference := none }] }
  | .unreadable e =>
    { filePath := filePath
      issues := [{ ruleId := "SYSTEM", ruleTitle := "文件读取失败", severity := "error",
                   description := "读取文件时出错: " ++ e, filePath := filePath,
                   lineStart := none, lineEnd := none, codeSnippet := none,
                   suggestion := none, ruleReference := none }] }
  | .content code =>
    let ext := toLowerStr (pySplitextExt filePath)
    reviewCodeSnippet cl code filePath (some (detectLanguage ext))

/-- `CodeReviewer.review_files`: one `FileReviewResult` per requested path. -/
def reviewFiles (fs : String → FileOutcome) (cl : StandardChecklist)
    (wsRoot : Option String) (filePaths : List String) : ReviewReport :=
  { fileResults := filePaths.map (reviewFile fs cl wsRoot)
    checklistName := cl.name
    checklistRulesCount := cl.rules.length }

/-- `CodeReviewer.review_diff`: per changed file, check each added line
against every rule; skip files with no added lines and drop zero-issue
results. -/
def reviewDiff (cl : StandardChecklist) (diffContent : String) : ReviewReport :=
  { fileResults :=
      (parseDiff diffContent).filterMap (fun df =>
        if df.addedLines = [] then none
        else
          let issues :=
            (df.addedLines.map (fun al =>
              cl.rules.filterMap (fun r => checkRuleAgainstLine r al.2 df.path al.1))).flatten
          if issues = [] then none
          else some { filePath := df.path, issues := issues })
    checklistName := cl.name
    checklistRulesCount := cl.rules.length }

/-! ## RuleExtractor: markdown sections -/

structure MdSection where
  level : Nat
  title : String
  content : String
  lineStart : Nat
  lineEnd : Nat
  deriving DecidableEq

/-- `^(#{1,6})\s+(.+)$` on one line: 1–6 leading `#`, then at least one
whitespace and at least one further character; the title is the stripped
remainder. -/
def parseHeaderLine (l : List Char) : Option (Nat × String) :=
  let hashes := l.takeWhile (· = '#')
  let rest := l.dropWhile (· = '#')
  if 1 ≤ hashes.length && hashes.length ≤ 6 &&
      (match rest with
       | r :: _ => pyIsSpace r
       | [] => false) && 2 ≤ rest.length then
    some (hashes.length, String.mk (pyStripL rest))
  else none

/-- `_extract_markdown_sections`: fold over the lines (1-based index),
opening a section at each header and flushing the previous one; content
before the first header is dropped, the last section ends at the last line. -/
def mdGo (total : Nat) : List String → Nat → Option (Nat × String × Nat) →
    List String → List MdSection
  | [], _, cur, buf =>
    (match cur with
     | none => []
     | some (lv, t, ls) =>
       [{ level := lv, title := t, content := String.intercalate "\n" buf,
          lineStart := ls, lineEnd := total }])
  | line :: rest, i, cur, buf =>
    match parseHeaderLine line.data with
    | some (lv, t) =>
      (match cur with
       | none => []
       | some (plv, pt, pls) =>
         [{ level := plv, title := pt, content := String.intercalate "\n" buf,
            lineStart := pls, lineEnd := i - 1 }])
      ++ mdGo total rest (i + 1) (some (lv, t, i)) []
    | none => mdGo total rest (i + 1) cur (buf ++ [line])

def extractMarkdownSections (content : String) : List MdSection :=
  let lines := (splitOnNl content.data).map String.mk
  mdGo lines.length lines 1 none []

/-! ## RuleExtractor: list items (`^[\s]*[-*]\s+(.+)$|^[\s]*\d+\.\s+(.+)$`,
re.MULTILINE, via `finditer`) -/

/-- Tail of a list item after the bullet / numeric marker: at least one
whitespace character (which may span line breaks), then the rest of the line
the first non-whitespace character sits on.  Returns the captured group and
the remaining suffix.  (When only whitespace remains to the end of the text,
the Python regex still matches a single whitespace character as the group;
that degenerate item is below the 10-character noise filter, so it is not
produced here.) -/
def itemTail (t : List Char) : Option (List Char × List Char) :=
  let w := t.takeWhile pyIsSpace
  let u := t.dropWhile pyIsSpace
  if w = [] then none
  else
    match u with
    | [] => none
    | _ :: _ => some (u.takeWhile (· ≠ '\n'), u.dropWhile (· ≠ '\n'))

/-- Try both regex alternatives at a line-start position: optional
whitespace, then `-`/`*` or digits followed by `.`, then `itemTail`. -/
def tryListItem (s : List Char) : Option (List Char × List Char) :=
  let rest := s.dropWhile pyIsSpace
  match rest with
  | [] => none
  | m :: after =>
    if m = '-' || m = '*' then itemTail after
    else
      let ds := rest.takeWhile isAsciiDigit
      if ds = [] then none
      else
        match rest.dropWhile isAsciiDigit with
        | '.' :: after2 => itemTail after2
        | _ => none

/-- `finditer` scan: attempt a match at every line-start position, resuming
after the consumed text on success.  Returns (match start offset, group). -/
def scanGo : Nat → List Char → Nat → Bool → List (Nat × String)
  | 0, _, _, _ => []
  | _ + 1, [], _, _ => []
  | fuel + 1, s@(c :: rest), pos, atStart =>
    if atStart then
      match tryListItem s with
      | some (g, rem) =>
        (pos, String.mk g) :: scanGo fuel rem (pos + (s.length - rem.length)) false
      | none => scanGo fuel rest (pos + 1) (c = '\n')
    else scanGo fuel rest (pos + 1) (c = '\n')

def scanListItems (content : String) : List (Nat × String) :=
  scanGo (content.data.length + 1) content.data 0 true

/-! ## RuleExtractor: severity, keywords, category -/

def errorVocab : List String :=
  ["必须", "禁止", "不得", "不允许", "强制", "must", "shall", "required",
   "forbidden", "never"]

def warningVocab : List String :=
  ["应该", "建议", "推荐", "避免", "should", "recommended", "avoid", "prefer"]

def infoVocab : List String :=
  ["可以", "可选", "注意", "说明", "may", "optional", "note", "consider"]

/-- Severity classification of `_extract_rules_from_section`: test the fixed
vocabularies against the lowercased item text in priority order
error → warning → info, defaulting to "info". -/
def classifySeverity (text : String) : String :=
  let low := toLowerL text.data
  if errorVocab.any (fun k => containsL low k.data) then "error"
  else if warningVocab.any (fun k => containsL low k.data) then "warning"
  else if infoVocab.any (fun k => containsL low k.data) then "info"
  else "info"

/-- `\b[A-Z][a-zA-Z]+\b|\b[a-z]+[A-Z][a-zA-Z]*\b` via `findall`: maximal
ASCII-letter runs whose neighbours are not word characters, kept when they
start uppercase with length ≥ 2 or start lowercase and contain an uppercase
letter. -/
def collectEnglishWords : Nat → Option Char → List Char → List (List Char)
  | 0, _, _ => []
  | _ + 1, _, [] => []
  | fuel + 1, prev, c :: rest =>
    if isAsciiLetter c then
      let run := c :: rest.takeWhile isAsciiLetter
      let rest2 := rest.dropWhile isAsciiLetter
      let beforeOk := match prev with
        | none => true
        | some p => !isWordChar p
      let afterOk := match rest2 with
        | [] => true
        | a :: _ => !isWordChar a
      let qualifies :=
        (c.isUpper && 2 ≤ run.length) || (c.isLower && run.any Char.isUpper)
      (if beforeOk && afterOk && qualifies then [run] else [])
        ++ collectEnglishWords fuel (some c) rest2
    else collectEnglishWords fuel (some c) rest

/-- Quote-mark class of the quoted-substring pattern. -/
def isQuoteChar (c : Char) : Bool :=
  c = '「' || c = '」' || c = '『' || c = '』' || c = '"' || c = '\'' || c = '`'

/-- `[Q]([^Q]+)[Q]` via `findall`: a quote mark, one or more non-quote
characters, a closing quote mark; scanning resumes after the closing mark. -/
def collectQuoted : Nat → List Char → List (List Char)
  | 0, _ => []
  | _ + 1, [] => []
  | fuel + 1, c :: rest =>
    if isQuoteChar c then
      let body := rest.takeWhile (fun x => !isQuoteChar x)
      match rest.dropWhile (fun x => !isQuoteChar x), body with
      | _ :: rest2, _ :: _ => body :: collectQuoted fuel rest2
      | _, _ => collectQuoted fuel rest
    else collectQuoted fuel rest

def codeTermVocab : List (List Char) :=
  ["class".data, "function".data, "method".data, "variable".data,
   "const".data, "enum".data, "struct".data, "interface".data]

/-- `\b(class|function|...)\b` via `findall` over the lowercased text. -/
def collectCodeTerms : Nat → Option Char → List Char → List (List Char)
  | 0, _, _ => []
  | _ + 1, _, [] => []
  | fuel + 1, prev, s@(c :: rest) =>
    let boundaryOk := match prev with
      | none => true
      | some p => !isWordChar p
    match
      (if boundaryOk then
        codeTermVocab.find? (fun w =>
          startsWithL w s &&
            (match s.drop w.length with
             | [] => true
             | a :: _ => !isWordChar a))
       else none) with
    | some w => w :: collectCodeTerms fuel w.getLast? (s.drop w.length)
    | none => collectCodeTerms fuel (some c) rest

/-- `list(dict.fromkeys(...))`: deduplicate preserving first occurrence
(fuel-driven: each step keeps one element and filters the rest, so the input
length bounds the recursion depth). -/
def dedupKeepGo : Nat → List String → List String
  | 0, _ => []
  | _ + 1, [] => []
  | fuel + 1, x :: xs => x :: dedupKeepGo fuel (xs.filter (fun y => y ≠ x))

def dedupKeep (l : List String) : List String := dedupKeepGo (l.length + 1) l

/-- `_extract_keywords_from_text`: up to 5 camel/upper-case tokens, up to 3
quoted substrings, all fixed code terms from the lowercased text;
deduplicated preserving order, capped at 8. -/
def extractKeywordsFromText (text : String) : List String :=
  let cs := text.data
  let eng := (collectEnglishWords (cs.length + 1) none cs).take 5
  let quoted := (collectQuoted (cs.length + 1) cs).take 3
  let low := toLowerL cs
  let terms := collectCodeTerms (low.length + 1) none low
  (dedupKeep ((eng ++ quoted ++ terms).map String.mk)).take 8

def categoryTable : List (String × List String) :=
  [("命名规范", ["naming", "命名", "name", "标识符", "identifier"]),
   ("代码格式", ["format", "格式", "style", "样式", "缩进", "indent", "空格", "space"]),
   ("注释规范", ["comment", "注释", "文档", "document", "doc"]),
   ("架构设计", ["architecture", "架构", "设计", "design", "pattern", "模式"]),
   ("错误处理", ["error", "错误", "异常", "exception", "handle"]),
   ("性能优化", ["performance", "性能", "优化", "optimize", "效率"]),
   ("安全规范", ["security", "安全", "权限", "permission", "auth"]),
   ("测试规范", ["test", "测试", "单元", "unit", "coverage"]),
   ("Git/版本控制", ["git", "version", "版本", "commit", "branch"]),
   ("API设计", ["api", "接口", "interface", "rest", "http"]),
   ("数据库", ["database", "数据库", "sql", "db", "table"]),
   ("日志规范", ["log", "日志", "logging", "trace"])]

/-- `_infer_category_from_path`: first table entry with a keyword inside the
lowercased `path + " " + section title`, else the generic category. -/
def inferCategoryFromPath (filePath sectionTitle : String) : String :=
  let combined := toLowerL filePath.data ++ " ".data ++ toLowerL sectionTitle.data
  ((categoryTable.find? (fun p => p.2.any (fun k => containsL combined k.data))).map
    (·.1)).getD "通用规范"

/-! ## RuleExtractor: building rules from a section -/

/-- The rule built for the surviving list item `(offset, text)` with 1-based
sequence number `idx` (Python increments `rule_index` before use). -/
def mkRuleFromItem (pfx src cat secTitle : String) (secLineStart : Nat)
    (content : String) (idx : Nat) (item : Nat × String) : StandardRule :=
  let text := item.2
  { ruleId := pfx ++ format3 idx
    title := String.mk (text.data.take 50) ++ (if 50 < text.length then "..." else "")
    description := text
    keywords := extractKeywordsFromText text
    severity := classifySeverity text
    sourceFile := src
    sourceLine := some (secLineStart + countNl (content.data.take item.1) + 1)
    sourceSection := some secTitle
    category := cat
    examples := []
    counterExamples := [] }

/-- The item loop of `_extract_rules_from_section` over the surviving items,
threading the per-section `rule_index` (starting at 0). -/
def buildRules (pfx src cat secTitle : String) (secLineStart : Nat)
    (content : String) : Nat → List (Nat × String) → List StandardRule
  | _, [] => []
  | i, item :: rest =>
    mkRuleFromItem pfx src cat secTitle secLineStart content (i + 1) item ::
      buildRules pfx src cat secTitle secLineStart content (i + 1) rest

/-- `_extract_rules_from_section`: scan the section body for list items,
drop items shorter than 10 characters, and number the rest from 1.  The
counter is local to the section. -/
def extractRulesFromSection (sec : MdSection) (sourceFile category pfx : String) :
    List StandardRule :=
  buildRules pfx sourceFile category sec.title sec.lineStart sec.content 0
    ((scanListItems sec.content).filter (fun it => 10 ≤ it.2.length))

/-! ## RuleExtractor: whole-document extraction -/

/-- basename (`Path(p).name`). -/
def pyBasename (p : String) : String :=
  String.mk ((p.data.reverse.takeWhile (· ≠ '/')).reverse)

/-- `Path(p).stem`: the basename without its last suffix; a dot at position 0
or at the very end does not count as a suffix separator. -/
def pyStem (p : String) : String :=
  let b := (pyBasename p).data
  match b.reverse.findIdx? (· = '.') with
  | none => String.mk b
  | some rIdx =>
    let i := b.length - 1 - rIdx
    if 0 < i && i < b.length - 1 then String.mk (b.take i) else String.mk b

/-- Default rule-id prefix of `extract_checklist_from_document`: alphanumeric
characters of the stem, first 10, uppercased, defaulting to "RULE", plus an
underscore. -/
def computeRuleIdPfx (docRelPath : String) : String :=
  let fn := pyStem docRelPath
  let p := String.mk (((fn.data.filter pyIsAlnum).take 10).map Char.toUpper)
  (if p = "" then "RULE" else p) ++ "_"

/-- `extract_checklist_from_document`, with the document body supplied
directly (the bounded reader is I/O): `none` models the empty-content error
branch.  Sections fall back to one whole-document section when no headings
exist; each section contributes its extracted rules in order. -/
def extractChecklistFromDocument (docRelPath content : String)
    (pfxOpt : Option String) : Option StandardChecklist :=
  if content = "" then none
  else
    let pfx := match pfxOpt with
      | some p => p
      | none => computeRuleIdPfx docRelPath
    let base : StandardChecklist :=
      { name := "规范检查清单 - " ++ pyBasename docRelPath
        rules := []
        sourceDocuments := [docRelPath]
        categories := [] }
    let secs0 := extractMarkdownSections content
    let secs :=
      if secs0 = [] then
        [{ level := 1, title := "规范内容", content := content,
           lineStart := 1, lineEnd := countNl content.data + 1 }]
      else secs0
    some (secs.foldl (fun cl sec =>
      (extractRulesFromSection sec docRelPath
          (inferCategoryFromPath docRelPath sec.title) pfx).foldl
        StandardChecklist.addRule cl) base)

/-! ## StandardLocator.build_checklist (cache behaviour) -/

structure LocatorState where
  rootDir : String
  customPaths : List String
  customKeywords : List String
  checklistCache : Option StandardChecklist
  deriving DecidableEq

structure BuildOut where
  checklist : Option StandardChecklist
  fromCache : Bool
  deriving DecidableEq

/-- `StandardLocator.build_checklist`: return the cached checklist when one
is present, no refresh is forced and no document paths are given; otherwise
run `build_project_checklist` (abstracted as `buildProject` over the document
paths, with `locatedDocs` standing for `get_located_documents`) and cache —
as the source does — a `StandardChecklist` holding only the result's name,
with no rules rebuilt. -/
def buildChecklist (buildProject : List String → Option StandardChecklist)
    (locatedDocs : List String) (st : LocatorState)
    (docPaths : Option (List String)) (forceRefresh : Bool) :
    BuildOut × LocatorState :=
  match st.checklistCache, forceRefresh, docPaths with
  | some cl, false, none => ({ checklist := some cl, fromCache := true }, st)
  | _, _, _ =>
    let paths := docPaths.getD locatedDocs
    match buildProject paths with
    | some data =>
      let cached : StandardChecklist :=
        { name := data.name, rules := [], sourceDocuments := [], categories := [] }
      ({ checklist := some data, fromCache := false },
       { st with checklistCache := some cached })
    | none => ({ checklist := none, fromCache := false }, st)

/-! ## Concrete inputs used by the claim evaluations -/

/-- A rule with two keywords whose description carries a prohibition term. -/
def c1Rule : StandardRule :=
  { ruleId := "SEC_001"
    title := "禁止拼接SQL"
    description := "禁止直接拼接SQL语句执行"
    keywords := ["execute", "sql"]
    severity := "error"
    sourceFile := "安全规范.md"
    sourceLine := some 10
    sourceSection := some "安全"
    category := "安全规范"
    examples := []
    counterExamples := [] }

def c1Checklist : StandardChecklist :=
  { name := "项目规范检查清单"
    rules := [c1Rule]
    sourceDocuments := ["安全规范.md"]
    categories := [("安全规范", [c1Rule])] }

/-- Each keyword of `c1Rule` hits a different line of this snippet. -/
def c1Code : String := "cursor.execute(query)\nsql = build_sql()"

/-- A document with two sections, each carrying one ≥10-character item. -/
def c2Doc : String :=
  "# A\n- 必须使用有意义的变量名啊\n# B\n- 禁止在代码里直接写密码哦\n"

def c2Ids : List String :=
  ((extractChecklistFromDocument "CODE.md" c2Doc none).map
    (fun cl => cl.rules.map (·.ruleId))).getD []

def c10Rule : StandardRule :=
  { ruleId := "DOC_001"
    title := "必须使用有意义的变量名啊"
    description := "必须使用有意义的变量名啊"
    keywords := []
    severity := "error"
    sourceFile := "规范/doc.md"
    sourceLine := some 2
    sourceSection := some "A"
    category := "通用规范"
    examples := []
    counterExamples := [] }

/-- The checklist `build_project_checklist` would return for the fixture. -/
def c10Data : StandardChecklist :=
  { name := "项目规范检查清单"
    rules := [c10Rule]
    sourceDocuments := ["规范/doc.md"]
    categories := [("通用规范", [c10Rule])] }

def c10BuildProject : List String → Option StandardChecklist := fun _ => some c10Data

def c10St0 : LocatorState :=
  { rootDir := "/share", customPaths := [], customKeywords := [], checklistCache := none }

def c10First : BuildOut × LocatorState :=
  buildChecklist c10BuildProject ["规范/doc.md"] c10St0 none false

def c10Second : BuildOut × LocatorState :=
  buildChecklist c10BuildProject ["规范/doc.md"] c10First.2 none false


/-- A single synthetic issue with the given severity (witness fixture). -/
def witnessIssue (sev : String) : ReviewIssue :=
  { ruleId := "R1", ruleTitle := "t", severity := sev, description := "d",
    filePath := "a.py", lineStart := none, lineEnd := none, codeSnippet := none,
    suggestion := none, ruleReference := none }

/-- One-file report whose single file result carries the given issues. -/
def witnessReport (issues : List ReviewIssue) : ReviewReport :=
  { fileResults := [{ filePath := "a.py", issues := issues }],
    checklistName := "清单", checklistRulesCount := 1 }


/-- One-item section fixture for the extraction witness. -/
def c7Sec : MdSection :=
  { level := 1, title := "命名", content := "- 必须使用有意义的变量名啊",
    lineStart := 1, lineEnd := 2 }


/-- Filesystem oracle with one missing and one unreadable path. -/
def c9Fs : String → FileOutcome := fun p =>
  if p = "gone.py" then FileOutcome.missing
  else if p = "locked.py" then FileOutcome.unreadable "permission denied"
  else FileOutcome.content ""

/-! ## Helper lemmas: decimal formatting is injective -/

theorem digitVal_digitChar {d : Nat} (h : d < 10) : digitVal (digitChar d) = d := by
  interval_cases d <;> decide

theorem natDigitsRevGo_all_lt (fuel : Nat) :
    ∀ n, n < fuel → ∀ d ∈ natDigitsRevGo fuel n, d < 10 := by
  induction fuel with
  | zero => intro n hn; omega
  | succ fuel ih =>
    intro n hn d hd
    unfold natDigitsRevGo at hd
    by_cases h10 : n < 10
    · simp [h10] at hd; omega
    · simp [h10] at hd
      rcases hd with h | h
      · omega
      · exact ih (n / 10) (by
          have := Nat.div_lt_self (by omega : 0 < n) (by omega : 1 < 10)
          omega) d h

theorem parseDigitsL_append_singleton (A : List Char) (c : Char) :
    parseDigitsL (A ++ [c]) = 10 * parseDigitsL A + digitVal c := by
  simp [parseDigitsL, List.foldl_append]

theorem parseDigitsL_rev_go (fuel : Nat) :
    ∀ n, n < fuel →
      parseDigitsL ((natDigitsRevGo fuel n).reverse.map digitChar) = n := by
  induction fuel with
  | zero => intro n hn; omega
  | succ fuel ih =>
    intro n hn
    unfold natDigitsRevGo
    by_cases h10 : n < 10
    · simp [h10, parseDigitsL, digitVal_digitChar h10]
    · have hdiv : n / 10 < fuel := by
        have := Nat.div_lt_self (by omega : 0 < n) (by omega : 1 < 10)
        omega
      have hmod : n % 10 < 10 := Nat.mod_lt _ (by omega)
      simp only [h10, if_false, List.reverse_cons, List.map_append, List.map_cons,
        List.map_nil]
      rw [parseDigitsL_append_singleton, ih (n / 10) hdiv, digitVal_digitChar hmod]
      omega

theorem parseDigitsL_zeros (k : Nat) (l : List Char) :
    parseDigitsL (List.replicate k '0' ++ l) = parseDigitsL l := by
  induction k with
  | zero => simp
  | succ k ih =>
    have : List.replicate (k + 1) '0' ++ l = '0' :: (List.replicate k '0' ++ l) := by
      simp [List.replicate_succ]
    rw [this]
    simpa [parseDigitsL, digitVal] using ih

theorem parseDigitsL_format3 (n : Nat) : parseDigitsL (format3 n).data = n := by
  have h := parseDigitsL_rev_go (n + 1) n (by omega)
  simpa [format3, parseDigitsL_zeros] using h

theorem format3_injective : Function.Injective format3 := by
  intro m n h
  have := congrArg (fun s => parseDigitsL s.data) h
  simpa [parseDigitsL_format3] using this

theorem string_append_left_cancel {p a b : String} (h : p ++ a = p ++ b) : a = b := by
  have hd : p.data ++ a.data = p.data ++ b.data := by
    have := congrArg String.data h
    simpa [String.data_append] using this
  cases a; cases b
  simp only at hd ⊢
  exact congrArg String.mk (List.append_cancel_left hd)

/-! ## Helper lemmas: substring tests survive character maps -/

theorem startsWithL_map (f : Char → Char) :
    ∀ pat s, startsWithL pat s = true →
      startsWithL (pat.map f) (s.map f) = true := by
  intro pat
  induction pat with
  | nil => intro s _; simp [startsWithL]
  | cons p ps ih =>
    intro s h
    cases s with
    | nil => simp [startsWithL] at h
    | cons c cs =>
      simp [startsWithL] at h ⊢
      exact ⟨by rw [h.1], ih cs h.2⟩

theorem containsL_map (f : Char → Char) :
    ∀ hay needle, containsL hay needle = true →
      containsL (hay.map f) (needle.map f) = true := by
  intro hay
  induction hay with
  | nil =>
    intro needle h
    unfold containsL at h ⊢
    cases needle with
    | nil => simp [startsWithL]
    | cons n ns => simp [startsWithL] at h
  | cons c cs ih =>
    intro needle h
    unfold containsL at h ⊢
    simp only [Bool.or_eq_true] at h ⊢
    rcases h with h | h
    · exact Or.inl (startsWithL_map f needle (c :: cs) h)
    · exact Or.inr (ih needle h)

/-! ## Helper lemmas: per-section rule numbering -/

theorem buildRules_length (pfx src cat t : String) (ls : Nat) (content : String) :
    ∀ items i, (buildRules pfx src cat t ls content i items).length = items.length := by
  intro items
  induction items with
  | nil => intro i; rfl
  | cons item rest ih => intro i; simp [buildRules, ih]

theorem buildRules_map_ruleId (pfx src cat t : String) (ls : Nat) (content : String) :
    ∀ items i,
      (buildRules pfx src cat t ls content i items).map (·.ruleId) =
        (List.range items.length).map (fun k => pfx ++ format3 (i + k + 1)) := by
  intro items
  induction items with
  | nil => intro i; rfl
  | cons item rest ih =>
    intro i
    simp only [buildRules, List.map_cons, List.length_cons,
      List.range_succ_eq_map, List.map_map]
    refine congrArg₂ _ (by simp [mkRuleFromItem]) ?_
    rw [ih (i + 1)]
    refine List.map_congr_left ?_
    intro k _
    have harith : i + 1 + k + 1 = i + (k + 1) + 1 := by omega
    simp [Function.comp, harith]

theorem buildRules_mem (pfx src cat t : String) (ls : Nat) (content : String) :
    ∀ items i r, r ∈ buildRules pfx src cat t ls content i items →
      ∃ it ∈ items, r.description = it.2 ∧ r.severity = classifySeverity it.2 := by
  intro items
  induction items with
  | nil => intro i r h; simp [buildRules] at h
  | cons item rest ih =>
    intro i r h
    simp only [buildRules, List.mem_cons] at h
    rcases h with h | h
    · exact ⟨item, by simp, by simp [h, mkRuleFromItem]⟩
    · obtain ⟨it, hit, hprop⟩ := ih (i + 1) r h
      exact ⟨it, by simp [hit], hprop⟩

/-- An item text containing "必须" classifies as severity "error". -/
theorem classifySeverity_eq_error_of_bixu (text : String)
    (h : strContains text "必须" = true) : classifySeverity text = "error" := by
  have hlow : containsL (toLowerL text.data) ("必须".data) = true := by
    have := containsL_map Char.toLower text.data ("必须".data) h
    simpa [toLowerL] using this
  have hany : errorVocab.any (fun k => containsL (toLowerL text.data) k.data) = true := by
    simp only [List.any_eq_true]
    exact ⟨"必须", by simp [errorVocab], hlow⟩
  simp [classifySeverity, hany]

/-! ## Helper lemmas: reports, review plumbing, diff parsing -/

theorem hasBlockingIssues_iff_totalErrors_pos (r : ReviewReport) :
    r.hasBlockingIssues = true ↔ 1 ≤ r.totalErrors := by
  constructor
  · intro h
    simp only [ReviewReport.hasBlockingIssues, List.any_eq_true,
      FileReviewResult.hasBlockingIssues, decide_eq_true_eq] at h
    obtain ⟨fr, hfr, hpos⟩ := h
    have : fr.errorCount ≤ r.totalErrors :=
      List.single_le_sum (by intro x _; omega) _ (List.mem_map_of_mem _ hfr)
    omega
  · intro h
    by_contra hno
    have hall : ∀ fr ∈ r.fileResults, fr.errorCount = 0 := by
      intro fr hfr
      simp only [ReviewReport.hasBlockingIssues, List.any_eq_true,
        FileReviewResult.hasBlockingIssues, decide_eq_true_eq] at hno
      push_neg at hno
      have := hno fr hfr
      omega
    have : r.totalErrors = 0 := by
      simp only [ReviewReport.totalErrors]
      rw [List.sum_eq_zero]
      intro x hx
      obtain ⟨fr, hfr, rfl⟩ := List.mem_map.mp hx
      exact hall fr hfr
    omega

theorem reviewFile_filePath (fs : String → FileOutcome) (cl : StandardChecklist)
    (wsRoot : Option String) (p : String) :
    (reviewFile fs cl wsRoot p).filePath = p := by
  unfold reviewFile
  cases hfs : fs (resolveFullPath wsRoot p) <;> simp [hfs, reviewCodeSnippet]

theorem fvGo_eq_none (rule : StandardRule) (allLines : List String)
    (filePath kw : String)
    (hviol : ∀ line, isViolationPattern rule line kw = false) :
    ∀ lines n, fvGo rule allLines filePath kw n lines = none := by
  intro lines
  induction lines with
  | nil => intro n; rfl
  | cons line rest ih =>
    intro n
    simp [fvGo, hviol line, ih (n + 1)]

theorem startsWithL_head {p : Char} {ps s : List Char}
    (h : startsWithL (p :: ps) s = true) : ∃ t, s = p :: t := by
  cases s with
  | nil => simp [startsWithL] at h
  | cons c cs =>
    simp [startsWithL] at h
    exact ⟨cs, by rw [h.1]⟩

theorem parseFileHeaderL_head {l : List Char} {p : String}
    (h : parseFileHeaderL l = some p) : ∃ t, l = 'd' :: t := by
  unfold parseFileHeaderL at h
  by_cases hs : startsWithL ("diff --git a/".data) l = true
  · have : ("diff --git a/".data) = 'd' :: ("iff --git a/".data) := rfl
    rw [this] at hs
    exact startsWithL_head hs
  · simp [Bool.not_eq_true] at hs
    simp [hs] at h

theorem parseHunkHeaderL_head {l : List Char} {n : Nat}
    (h : parseHunkHeaderL l = some n) : ∃ t, l = '@' :: t := by
  unfold parseHunkHeaderL at h
  by_cases hs : startsWithL ("@@ -".data) l = true
  · have : ("@@ -".data) = '@' :: ("@ -".data) := rfl
    rw [this] at hs
    exact startsWithL_head hs
  · simp [Bool.not_eq_true] at hs
    simp [hs] at h

theorem parseFileHeaderL_none_of_head {c : Char} (t : List Char) (h : c ≠ 'd') :
    parseFileHeaderL (c :: t) = none := by
  unfold parseFileHeaderL
  have hrw : ("diff --git a/".data) = 'd' :: ("iff --git a/".data) := rfl
  rw [hrw]
  simp [startsWithL, Ne.symm h]

theorem parseHunkHeaderL_none_of_head {c : Char} (t : List Char) (h : c ≠ '@') :
    parseHunkHeaderL (c :: t) = none := by
  unfold parseHunkHeaderL
  have hrw : ("@@ -".data) = '@' :: ("@ -".data) := rfl
  rw [hrw]
  simp [startsWithL, Ne.symm h]

/-! ## Claim theorems -/

/-- C1: the claim says snippet/file review emits at most one Issue per rule
per file.  The code's `break` only leaves the inner line loop of
`_check_rule_against_code`, not the keyword loop, so a rule with two keywords
("execute", "sql"), error severity and a prohibition term in its description
yields two Issues carrying the same rule id on this two-line snippet —
contradicting the code's own comment 每条规则每个文件只报告一次主要问题. -/
theorem C1_keyword_loop_emits_multiple_issues :
    ((reviewCodeSnippet c1Checklist c1Code "<snippet>" none).issues.map (·.ruleId)) =
      ["SEC_001", "SEC_001"] ∧
    ¬ (((reviewCodeSnippet c1Checklist c1Code "<snippet>" none).issues.map
        (·.ruleId)).Nodup) := by
  constructor
  · decide
  · decide

/-- C2 counterexample: `extract_checklist_from_document` on a document with
two sections, each contributing one rule, assigns both rules the id
"CODE_001" — rule ids are not unique within one extraction pass, because
`rule_index` restarts per section, not per document. -/
theorem C2_duplicate_rule_ids_in_one_document :
    (extractChecklistFromDocument "CODE.md" c2Doc none).isSome = true ∧
    c2Ids = ["CODE_001", "CODE_001"] ∧ ¬ c2Ids.Nodup := by
  refine ⟨by decide, by decide, by decide⟩

/-- C2 amended: within a single section, rule ids are the prefix followed by
the 3-digit sequence numbers 1, 2, …; hence they are pairwise distinct
within that section (though not across sections of one document). -/
theorem C2_rule_ids_sequential_per_section (sec : MdSection)
    (sourceFile category pfx : String) :
    (extractRulesFromSection sec sourceFile category pfx).map (·.ruleId) =
      (List.range (extractRulesFromSection sec sourceFile category pfx).length).map
        (fun k => pfx ++ format3 (k + 1)) ∧
    ((extractRulesFromSection sec sourceFile category pfx).map (·.ruleId)).Nodup := by
  have hinj : Function.Injective (fun k => pfx ++ format3 (k + 1)) := by
    intro a b hab
    have h2 := format3_injective (string_append_left_cancel hab)
    omega
  have hmap :
      (extractRulesFromSection sec sourceFile category pfx).map (·.ruleId) =
        (List.range (extractRulesFromSection sec sourceFile category pfx).length).map
          (fun k => pfx ++ format3 (k + 1)) := by
    unfold extractRulesFromSection
    rw [buildRules_map_ruleId, buildRules_length]
    refine List.map_congr_left ?_
    intro k _
    simp
  exact ⟨hmap, by rw [hmap]; exact (List.nodup_range _).map hinj⟩

/-- C3: the verdict is a pure function of the summed per-file error and
warning counts: ≥1 error ⇒ BLOCKED; 0 errors and ≥1 warning ⇒
PASSED_WITH_WARNINGS; 0 errors and 0 warnings ⇒ PASSED. -/
theorem C3_verdict_from_counts (r : ReviewReport) :
    r.totalErrors = (r.fileResults.map FileReviewResult.errorCount).sum ∧
    r.totalWarnings = (r.fileResults.map FileReviewResult.warningCount).sum ∧
    (1 ≤ r.totalErrors → r.verdict = "BLOCKED") ∧
    (r.totalErrors = 0 → 1 ≤ r.totalWarnings → r.verdict = "PASSED_WITH_WARNINGS") ∧
    (r.totalErrors = 0 → r.totalWarnings = 0 → r.verdict = "PASSED") := by
  refine ⟨rfl, rfl, ?_, ?_, ?_⟩
  · intro h
    have hb : r.hasBlockingIssues = true :=
      (hasBlockingIssues_iff_totalErrors_pos r).mpr h
    simp [ReviewReport.verdict, hb]
  · intro h0 hw
    have hb : r.hasBlockingIssues = false := by
      by_contra hc
      simp only [Bool.not_eq_false] at hc
      have := (hasBlockingIssues_iff_totalErrors_pos r).mp hc
      omega
    simp only [ReviewReport.verdict, hb, Bool.false_eq_true, if_false]
    rw [if_pos (by omega)]
  · intro h0 hw0
    have hb : r.hasBlockingIssues = false := by
      by_contra hc
      simp only [Bool.not_eq_false] at hc
      have := (hasBlockingIssues_iff_totalErrors_pos r).mp hc
      omega
    simp only [ReviewReport.verdict, hb, Bool.false_eq_true, if_false]
    rw [if_neg (by omega)]

/-- C3 witness: the three verdict implications at concrete reports. -/
theorem C3_verdict_from_counts_witness :
    (witnessReport [witnessIssue "error", witnessIssue "warning"]).verdict = "BLOCKED" ∧
    (witnessReport [witnessIssue "warning"]).verdict = "PASSED_WITH_WARNINGS" ∧
    (witnessReport []).verdict = "PASSED" := by
  refine ⟨(C3_verdict_from_counts _).2.2.1 (by decide),
          (C3_verdict_from_counts _).2.2.2.1 (by decide) (by decide),
          (C3_verdict_from_counts _).2.2.2.2 (by decide) (by decide)⟩

/-- C4: per-line behaviour of the diff parser: a hunk header resets the
running counter to the new-side start; an added line (leading `+`, not the
`+++` marker) is recorded at the counter which then increments; a context
line increments without recording; a removed line changes nothing; and the
spec's concrete hunk example numbers the two added lines 11 and 12. -/
theorem C4_diff_line_numbering :
    (∀ (st : DiffState) (line : String) (n : Nat),
        parseHunkHeaderL line.data = some n →
        diffStep st line = { st with lineNum := n }) ∧
    (∀ (st : DiffState) (f : DiffFile) (line : String) (cs : List Char),
        st.current = some f → line.data = '+' :: cs →
        startsWithL ("+++".data) line.data = false →
        diffStep st line =
          { st with
            current := some { f with addedLines := f.addedLines ++ [(st.lineNum, String.mk cs)] }
            lineNum := st.lineNum + 1 }) ∧
    (∀ (st : DiffState) (f : DiffFile) (line : String) (cs : List Char),
        st.current = some f → line.data = ' ' :: cs →
        diffStep st line = { st with lineNum := st.lineNum + 1 }) ∧
    (∀ (st : DiffState) (f : DiffFile) (line : String) (cs : List Char),
        st.current = some f → line.data = '-' :: cs → diffStep st line = st) ∧
    parseDiff "diff --git a/f.py b/f.py\n@@ -10,3 +10,4 @@\n ctx\n+one\n+two" =
      [{ path := "f.py", addedLines := [(11, "one"), (12, "two")] }] := by
  refine ⟨?_, ?_, ?_, ?_, by decide⟩
  · intro st line n h
    obtain ⟨t, ht⟩ := parseHunkHeaderL_head h
    unfold diffStep
    rw [ht] at h ⊢
    rw [parseFileHeaderL_none_of_head t (by decide), h]
  · intro st f line cs hcur hdata hppp
    unfold diffStep
    rw [hdata] at hppp ⊢
    rw [parseFileHeaderL_none_of_head cs (by decide),
      parseHunkHeaderL_none_of_head cs (by decide), hcur]
    have hplus : startsWithL ("+".data) ('+' :: cs) = true := by
      have : ("+".data) = ['+'] := rfl
      rw [this]; simp [startsWithL]
    simp [hplus, hppp]
  · intro st f line cs hcur hdata
    unfold diffStep
    rw [hdata]
    rw [parseFileHeaderL_none_of_head cs (by decide),
      parseHunkHeaderL_none_of_head cs (by decide), hcur]
    have hplus : startsWithL ("+".data) (' ' :: cs) = false := by
      have : ("+".data) = ['+'] := rfl
      rw [this]; simp [startsWithL]
    have hsp : startsWithL (" ".data) (' ' :: cs) = true := by
      have : (" ".data) = [' '] := rfl
      rw [this]; simp [startsWithL]
    simp [hplus, hsp]
  · intro st f line cs hcur hdata
    unfold diffStep
    rw [hdata]
    rw [parseFileHeaderL_none_of_head cs (by decide),
      parseHunkHeaderL_none_of_head cs (by decide), hcur]
    have hplus : startsWithL ("+".data) ('-' :: cs) = false := by
      have : ("+".data) = ['+'] := rfl
      rw [this]; simp [startsWithL]
    have hsp : startsWithL (" ".data) ('-' :: cs) = false := by
      have : (" ".data) = [' '] := rfl
      rw [this]; simp [startsWithL]
    simp [hplus, hsp]

/-- C4 witness: the hunk-header, added-line, context-line and removed-line
cases exercised on concrete states and lines. -/
theorem C4_diff_line_numbering_witness :
    diffStep { files := [], current := none, lineNum := 0 } "@@ -3,2 +7,3 @@" =
      { files := [], current := none, lineNum := 7 } ∧
    diffStep { files := [], current := some { path := "f", addedLines := [] }, lineNum := 7 }
        "+abc" =
      { files := [], current := some { path := "f", addedLines := [(7, "abc")] },
        lineNum := 8 } ∧
    diffStep { files := [], current := some { path := "f", addedLines := [] }, lineNum := 7 }
        " ctx" =
      { files := [], current := some { path := "f", addedLines := [] }, lineNum := 8 } ∧
    diffStep { files := [], current := some { path := "f", addedLines := [] }, lineNum := 7 }
        "-old" =
      { files := [], current := some { path := "f", addedLines := [] }, lineNum := 7 } := by
  refine ⟨C4_diff_line_numbering.1 _ _ 7 (by decide),
          C4_diff_line_numbering.2.1 _ _ _ ("abc".data) rfl rfl (by decide),
          C4_diff_line_numbering.2.2.1 _ _ _ ("ctx".data) rfl rfl,
          C4_diff_line_numbering.2.2.2.1 _ _ _ ("old".data) rfl rfl⟩

/-- Per-keyword score spelled out as the spec's weight table: filename-exact
100 / filename-substring 50, plus 30 for a directory match, plus 20 for a
content match; 0 for a keyword that matches nowhere. -/
theorem keywordScore_eq_weights (fn : String) (parents : List String)
    (content kw : String) :
    keywordScore fn parents content kw =
      (if containsL (toLowerL fn.data) (toLowerL kw.data) then
         (if toLowerL fn.data = toLowerL kw.data then (100 : Int) else 50)
       else 0)
      + (if parents.any (fun p => containsL (toLowerL p.data) (toLowerL kw.data)) then 30 else 0)
      + (if containsL (toLowerL content.data) (toLowerL kw.data) then 20 else 0) := by
  by_cases hn : containsL (toLowerL fn.data) (toLowerL kw.data) = true <;>
    by_cases hd : parents.any (fun p => containsL (toLowerL p.data) (toLowerL kw.data)) = true <;>
      by_cases hc : containsL (toLowerL content.data) (toLowerL kw.data) = true <;>
        by_cases he : toLowerL fn.data = toLowerL kw.data <;>
          simp_all [keywordScore, calculateRelevanceScore]

theorem keywordScore_nonneg (fn : String) (parents : List String)
    (content kw : String) : 0 ≤ keywordScore fn parents content kw := by
  rw [keywordScore_eq_weights]
  split_ifs <;> norm_num

/-- C5: the search score is the sum over keywords of the fixed weights
(100/50 filename, 30 directory, 20 content); it is nonnegative, invariant
under permuting the keyword list, and two keywords matching purely as
filename substrings score exactly 100. -/
theorem C5_score_additivity :
    (∀ (fn : String) (parents : List String) (content : String) (kws : List String),
        searchInFileScore fn parents content kws =
          (kws.map (fun kw =>
            (if containsL (toLowerL fn.data) (toLowerL kw.data) then
               (if toLowerL fn.data = toLowerL kw.data then (100 : Int) else 50)
             else 0)
            + (if parents.any (fun p => containsL (toLowerL p.data) (toLowerL kw.data)) then 30 else 0)
            + (if containsL (toLowerL content.data) (toLowerL kw.data) then 20 else 0))).sum) ∧
    (∀ (fn : String) (parents : List String) (content : String) (kws : List String),
        0 ≤ searchInFileScore fn parents content kws) ∧
    (∀ (fn : String) (parents : List String) (content : String) (kws kws2 : List String),
        kws.Perm kws2 →
        searchInFileScore fn parents content kws =
          searchInFileScore fn parents content kws2) ∧
    (∀ (fn : String) (parents : List String) (content : String) (k1 k2 : String),
        containsL (toLowerL fn.data) (toLowerL k1.data) = true →
        toLowerL fn.data ≠ toLowerL k1.data →
        parents.any (fun p => containsL (toLowerL p.data) (toLowerL k1.data)) = false →
        containsL (toLowerL content.data) (toLowerL k1.data) = false →
        containsL (toLowerL fn.data) (toLowerL k2.data) = true →
        toLowerL fn.data ≠ toLowerL k2.data →
        parents.any (fun p => containsL (toLowerL p.data) (toLowerL k2.data)) = false →
        containsL (toLowerL content.data) (toLowerL k2.data) = false →
        searchInFileScore fn parents content [k1, k2] = 100) := by
  refine ⟨?_, ?_, ?_, ?_⟩
  · intro fn parents content kws
    unfold searchInFileScore
    exact congrArg List.sum (List.map_congr_left (fun kw _ => keywordScore_eq_weights fn parents content kw))
  · intro fn parents content kws
    unfold searchInFileScore
    refine List.sum_nonneg ?_
    intro x hx
    obtain ⟨kw, _, rfl⟩ := List.mem_map.mp hx
    exact keywordScore_nonneg fn parents content kw
  · intro fn parents content kws kws2 hperm
    unfold searchInFileScore
    exact (hperm.map (keywordScore fn parents content)).sum_eq
  · intro fn parents content k1 k2 h1n h1e h1d h1c h2n h2e h2d h2c
    unfold searchInFileScore
    simp only [List.map_cons, List.map_nil, List.sum_cons, List.sum_nil]
    rw [keywordScore_eq_weights fn parents content k1,
      keywordScore_eq_weights fn parents content k2]
    rw [if_pos h1n, if_neg h1e, if_neg (by simp [h1d]), if_neg (by simp [h1c]),
      if_pos h2n, if_neg h2e, if_neg (by simp [h2d]), if_neg (by simp [h2c])]
    norm_num

/-- C5 witness: two filename-substring keywords on a concrete file score
exactly 100, and a concrete permutation leaves the score unchanged. -/
theorem C5_score_additivity_witness :
    searchInFileScore "naming_conventions.md" [] "" ["naming", "conventions"] = 100 ∧
    searchInFileScore "naming_conventions.md" [] "" ["conventions", "naming"] =
      searchInFileScore "naming_conventions.md" [] "" ["naming", "conventions"] := by
  refine ⟨C5_score_additivity.2.2.2 _ _ _ _ _ (by decide) (by decide) (by decide)
            (by decide) (by decide) (by decide) (by decide) (by decide),
          C5_score_additivity.2.2.1 _ _ _ _ _ (by decide)⟩

/-- C6: the violation predicate holds exactly when the trimmed, lowercased
line contains or is contained in a stored counter-example, or the rule has
error severity and its description carries a prohibition term; consequently a
rule with no counter-examples and no prohibition term in its description
never produces an issue on any code — keyword presence alone never fires. -/
theorem C6_violation_predicate :
    (∀ (rule : StandardRule) (line kw : String),
        isViolationPattern rule line kw = true ↔
          ((∃ ce ∈ rule.counterExamples,
              containsL (toLowerL (pyStripL line.data)) (toLowerL (pyStripL ce.data)) = true ∨
              containsL (toLowerL (pyStripL ce.data)) (toLowerL (pyStripL line.data)) = true) ∨
           (rule.severity = "error" ∧
            ∃ neg ∈ negativeKeywords,
              containsL (toLowerL rule.description.data) neg.data = true))) ∧
    (∀ (rule : StandardRule), rule.counterExamples = [] →
        (∀ neg ∈ negativeKeywords,
          containsL (toLowerL rule.description.data) neg.data = false) →
        ∀ (code filePath : String) (language : Option String),
          checkRuleAgainstCode rule code filePath language = []) := by
  constructor
  · intro rule line kw
    simp [isViolationPattern, List.any_eq_true]
  · intro rule hce hneg code filePath language
    have hany : negativeKeywords.any
        (fun neg => containsL (toLowerL rule.description.data) neg.data) = false := by
      rw [List.any_eq_false]
      intro neg hmem
      simp [hneg neg hmem]
    have hviol : ∀ line kwx, isViolationPattern rule line kwx = false := by
      intro line kwx
      simp [isViolationPattern, hce, hany]
    unfold checkRuleAgainstCode
    rw [List.filterMap_eq_nil_iff]
    intro kwx _
    exact fvGo_eq_none rule _ filePath kwx (fun line => hviol line kwx) _ 1

/-- C6 witness: a rule whose keyword occurs in the code but that has no
counter-examples and no prohibition term yields no issues. -/
theorem C6_violation_predicate_witness :
    checkRuleAgainstCode
      { ruleId := "NAME_001", title := "变量命名", description := "变量必须使用有意义的名称",
        keywords := ["变量"], severity := "error", sourceFile := "命名规范.md",
        sourceLine := some 3, sourceSection := some "命名", category := "命名规范",
        examples := [], counterExamples := [] }
      "变量 x" "<snippet>" none = [] := by
  exact C6_violation_predicate.2 _ rfl (by decide) _ _ none

/-- C7: extraction drops list items shorter than 10 characters (one rule per
surviving item), classifies every surviving item by the fixed vocabularies in
priority order error → warning → info (default info), and in particular an
item containing "必须" yields severity error. -/
theorem C7_item_filter_and_severity (sec : MdSection)
    (sourceFile category pfx : String) :
    (extractRulesFromSection sec sourceFile category pfx).length =
      ((scanListItems sec.content).filter (fun it => 10 ≤ it.2.length)).length ∧
    (∀ r ∈ extractRulesFromSection sec sourceFile category pfx,
        10 ≤ r.description.length) ∧
    (∀ r ∈ extractRulesFromSection sec sourceFile category pfx,
        r.severity = classifySeverity r.description) ∧
    (∀ r ∈ extractRulesFromSection sec sourceFile category pfx,
        strContains r.description "必须" = true → r.severity = "error") := by
  refine ⟨?_, ?_, ?_, ?_⟩
  · unfold extractRulesFromSection
    exact buildRules_length _ _ _ _ _ _ _ _
  · intro r hr
    unfold extractRulesFromSection at hr
    obtain ⟨it, hit, hdesc, _⟩ := buildRules_mem _ _ _ _ _ _ _ _ r hr
    have hlen := (List.mem_filter.mp hit).2
    rw [hdesc]
    simpa using hlen
  · intro r hr
    unfold extractRulesFromSection at hr
    obtain ⟨it, hit, hdesc, hsev⟩ := buildRules_mem _ _ _ _ _ _ _ _ r hr
    rw [hdesc, hsev]
  · intro r hr hbixu
    unfold extractRulesFromSection at hr
    obtain ⟨it, hit, hdesc, hsev⟩ := buildRules_mem _ _ _ _ _ _ _ _ r hr
    rw [hsev, ← hdesc]
    exact classifySeverity_eq_error_of_bixu _ hbixu

/-- C7 witness: the single rule extracted from a one-item section whose item
contains "必须" has severity "error". -/
theorem C7_item_filter_and_severity_witness :
    (mkRuleFromItem "DOC_" "命名规范.md" "命名规范" "命名" 1
      "- 必须使用有意义的变量名啊" 1 (0, "必须使用有意义的变量名啊")).severity = "error" := by
  have heq : extractRulesFromSection c7Sec "命名规范.md" "命名规范" "DOC_" =
      [mkRuleFromItem "DOC_" "命名规范.md" "命名规范" "命名" 1
        "- 必须使用有意义的变量名啊" 1 (0, "必须使用有意义的变量名啊")] := by decide
  have hmem : (mkRuleFromItem "DOC_" "命名规范.md" "命名规范" "命名" 1
      "- 必须使用有意义的变量名啊" 1 (0, "必须使用有意义的变量名啊")) ∈
      extractRulesFromSection c7Sec "命名规范.md" "命名规范" "DOC_" := by
    rw [heq]; exact List.mem_singleton_self _
  exact (C7_item_filter_and_severity c7Sec "命名规范.md" "命名规范" "DOC_").2.2.2
    _ hmem (by decide)

/-- C8: `review_files` records one `FileReviewResult` per requested path, in
order, including zero-issue files; `review_diff` keeps a result only for
parsed diff files that have added lines and at least one issue. -/
theorem C8_file_vs_diff_report_membership :
    (∀ (fs : String → FileOutcome) (cl : StandardChecklist)
        (wsRoot : Option String) (filePaths : List String),
        (reviewFiles fs cl wsRoot filePaths).fileResults.map (·.filePath) =
          filePaths) ∧
    (∀ (cl : StandardChecklist) (diffContent : String) (fr : FileReviewResult),
        fr ∈ (reviewDiff cl diffContent).fileResults →
        fr.issues ≠ [] ∧
        ∃ df ∈ parseDiff diffContent,
          df.path = fr.filePath ∧ df.addedLines ≠ []) := by
  constructor
  · intro fs cl wsRoot filePaths
    unfold reviewFiles
    simp only [List.map_map]
    have : (fun p => (reviewFile fs cl wsRoot p).filePath) = fun p => p := by
      funext p
      exact reviewFile_filePath fs cl wsRoot p
    simp [Function.comp_def, this]
  · intro cl diffContent fr hfr
    unfold reviewDiff at hfr
    simp only [List.mem_filterMap] at hfr
    obtain ⟨df, hdf, heq⟩ := hfr
    by_cases hadd : df.addedLines = []
    · simp [hadd] at heq
    · rw [if_neg hadd] at heq
      by_cases hiss : (df.addedLines.map (fun al =>
          cl.rules.filterMap (fun r =>
            checkRuleAgainstLine r al.2 df.path al.1))).flatten = []
      · rw [if_pos hiss] at heq
        exact absurd heq (by simp)
      · rw [if_neg hiss] at heq
        have hfr' := Option.some.inj heq
        refine ⟨?_, df, hdf, ?_, hadd⟩
        · rw [← hfr']
          exact hiss
        · rw [← hfr']

/-- C8 witness: a two-path batch yields results for both paths (even though
both reviews find nothing), while the same checklist on a diff whose one
added line violates a rule yields a result with a nonempty issue list. -/
theorem C8_file_vs_diff_report_membership_witness :
    ((reviewFiles (fun _ => FileOutcome.content "print(1)") c1Checklist none
        ["a.py", "b.py"]).fileResults.map (·.filePath)) = ["a.py", "b.py"] ∧
    ∀ fr ∈ (reviewDiff c1Checklist
        "diff --git a/f.py b/f.py\n@@ -1 +1,2 @@\n+cursor.execute(q)").fileResults,
      fr.issues ≠ [] := by
  refine ⟨C8_file_vs_diff_report_membership.1 _ _ _ _, ?_⟩
  intro fr hfr
  exact (C8_file_vs_diff_report_membership.2 _ _ fr hfr).1

/-- C9: a missing file or a read failure never raises: `review_file` returns
a result for the requested path holding exactly one synthetic Issue with rule
id "SYSTEM" and severity error, and `review_files` still processes every
path of the batch independently. -/
theorem C9_review_file_error_handling :
    ∀ (fs : String → FileOutcome) (cl : StandardChecklist) (wsRoot : Option String),
      (∀ filePath : String,
        (fs (resolveFullPath wsRoot filePath) = FileOutcome.missing ∨
         ∃ e, fs (resolveFullPath wsRoot filePath) = FileOutcome.unreadable e) →
        (reviewFile fs cl wsRoot filePath).filePath = filePath ∧
        ((reviewFile fs cl wsRoot filePath).issues.map
          (fun i => (i.ruleId, i.severity))) = [("SYSTEM", "error")]) ∧
      (∀ filePaths : List String,
        (reviewFiles fs cl wsRoot filePaths).fileResults =
          filePaths.map (reviewFile fs cl wsRoot)) := by
  intro fs cl wsRoot
  constructor
  · intro filePath hbad
    rcases hbad with hmiss | ⟨e, hunread⟩
    · constructor <;> simp [reviewFile, hmiss]
    · constructor <;> simp [reviewFile, hunread]
  · intro filePaths
    rfl

/-- C9 witness: with a filesystem where one path is missing and another
unreadable, both reviews return the single SYSTEM error issue and the batch
report still covers both paths. -/
theorem C9_review_file_error_handling_witness :
    ((reviewFile c9Fs c1Checklist none "gone.py").issues.map
      (fun i => (i.ruleId, i.severity))) = [("SYSTEM", "error")] ∧
    ((reviewFile c9Fs c1Checklist none "locked.py").issues.map
      (fun i => (i.ruleId, i.severity))) = [("SYSTEM", "error")] ∧
    (reviewFiles c9Fs c1Checklist none ["gone.py", "locked.py"]).fileResults =
      ["gone.py", "locked.py"].map (reviewFile c9Fs c1Checklist none) := by
  refine ⟨((C9_review_file_error_handling c9Fs c1Checklist none).1 "gone.py"
            (Or.inl (by decide))).2,
          ((C9_review_file_error_handling c9Fs c1Checklist none).1 "locked.py"
            (Or.inr ⟨"permission denied", by decide⟩)).2,
          (C9_review_file_error_handling c9Fs c1Checklist none).2 _⟩

/-- C10: the claim says a second `build_checklist()` call (no doc paths, no
force-refresh) returns a checklist equal to the first call's.  The code
caches a `StandardChecklist` holding only the result's name — the rules are
never rebuilt (`重建 checklist 对象...（简化处理）`) — so the second call
serves a checklist with the same name but an empty rules list. -/
theorem C10_cached_checklist_drops_rules :
    c10First.1.checklist.map (fun cl => cl.rules.length) = some 1 ∧
    c10Second.1.fromCache = true ∧
    c10Second.1.checklist.map (fun cl => cl.rules.length) = some 0 ∧
    c10Second.1.checklist.map (fun cl => cl.name) =
      c10First.1.checklist.map (fun cl => cl.name) ∧
    c10Second.1.checklist ≠ c10First.1.checklist := by
  refine ⟨by decide, by decide, by decide, by decide, by decide⟩

end DocReview
